import Mathlib

/-!
Verification of the TenderLift zefix-client core: the Swiss-UID
normalisation utilities (`src/uid.ts`), the base64 helper
(`src/utils/node-or-worker.ts`), the request interceptor of
`ZefixApiClient` (`src/client.ts`: Basic-Auth header injection and
request throttling), and the error utilities (`ZefixError` / `ensureOk`
in the index module and in `utils/errors.ts`).

Strings are modelled as `List Char`; JavaScript runtime behaviour
(regular-expression matching, `String.prototype.trim`, truthiness,
`Date.now` arithmetic, the event loop around `await`) is embedded as
executable Lean functions, documented inline next to each definition.
-/

namespace Zefix

/-! ### JavaScript character classes

`\d` in a JS regex (no `u` flag) is exactly `[0-9]`; `\D` is its
complement.  `\s` is the WhiteSpace ∪ LineTerminator set, which is the
same set used by `String.prototype.trim`. -/

/-- JS regex `\d`: an ASCII decimal digit. -/
def isJsDigit (c : Char) : Bool :=
  decide (48 ≤ c.toNat ∧ c.toNat ≤ 57)

/-- JS regex `\s` (and the set trimmed by `String.prototype.trim`):
TAB..CR, SPACE, NBSP, OGHAM SPACE MARK, U+2000..U+200A, LINE/PARAGRAPH
SEPARATOR, NARROW NBSP, MATHEMATICAL SPACE, IDEOGRAPHIC SPACE, BOM. -/
def isJsSpace (c : Char) : Bool :=
  decide (c.toNat = 32 ∨ (9 ≤ c.toNat ∧ c.toNat ≤ 13) ∨ c.toNat = 160 ∨
    c.toNat = 5760 ∨ (8192 ≤ c.toNat ∧ c.toNat ≤ 8202) ∨ c.toNat = 8232 ∨
    c.toNat = 8233 ∨ c.toNat = 8239 ∨ c.toNat = 8287 ∨ c.toNat = 12288 ∨
    c.toNat = 65279)

/-- The character class `[\s.]` used between digits in `UID_INPUT_RE`. -/
def isDotSpace (c : Char) : Bool :=
  isJsSpace c || decide (c.toNat = 46)

/-- The character class `[\s.-]` allowed after the `che` literal in
`UID_INPUT_RE`. -/
def isSepAfterChe (c : Char) : Bool :=
  isJsSpace c || decide (c.toNat = 46) || decide (c.toNat = 45)

/-- ASCII lower-casing, the canonicalisation performed by the `i` flag
of `UID_INPUT_RE` on its ASCII pattern letters (without the `u` flag a
non-ASCII character never case-folds onto an ASCII pattern letter). -/
def lowerAscii (c : Char) : Char :=
  if 65 ≤ c.toNat ∧ c.toNat ≤ 90 then Char.ofNat (c.toNat + 32) else c

/-- `String.prototype.trim`: drop leading and trailing JS whitespace. -/
def trimJs (s : List Char) : List Char :=
  ((s.dropWhile isJsSpace).reverse.dropWhile isJsSpace).reverse

/-! ### The `UID_INPUT_RE` regular expression

`/^che[\s.-]*((?:\d[\s.]*){9})(?:\s*(?:mwst|tva|iva))?$/i` from
`src/uid.ts`.  The matcher below is deterministic; it recognises the
same anchored language as the backtracking regex engine, because each
backtracking choice point in this pattern is forced: the characters
accepted by `[\s.-]*` / `[\s.]*` can never also start the following
mandatory atom (`\d`), and giving characters back from the trailing
`[\s.]*` run to the optional `\s*` of the suffix group lands in the same
position.  The returned value is the content of capture group 1; any
successful decomposition yields a group containing all digits of the
subject (the prefix, separators and suffix contain none). -/

/-- Consume `n` repetitions of `\d[\s.]*`, greedily; return the
consumed characters (the capture-group content) and the rest. -/
def chompDigitUnits : Nat → List Char → Option (List Char × List Char)
  | 0, s => some ([], s)
  | _ + 1, [] => none
  | n + 1, c :: s =>
    if isJsDigit c then
      match chompDigitUnits n (s.dropWhile isDotSpace) with
      | some (g, r) => some (c :: (s.takeWhile isDotSpace ++ g), r)
      | none => none
    else none

/-- The token `mwst` of the VAT-suffix alternation. -/
def mwstTok : List Char := ['m', 'w', 's', 't']

/-- The token `tva` of the VAT-suffix alternation. -/
def tvaTok : List Char := ['t', 'v', 'a']

/-- The token `iva` of the VAT-suffix alternation. -/
def ivaTok : List Char := ['i', 'v', 'a']

/-- The optional anchored suffix `\s*(?:mwst|tva|iva)$`, case
insensitive. -/
def matchesSuffixJs (s : List Char) : Bool :=
  decide ((s.dropWhile isJsSpace).map lowerAscii = mwstTok) ||
  decide ((s.dropWhile isJsSpace).map lowerAscii = tvaTok) ||
  decide ((s.dropWhile isJsSpace).map lowerAscii = ivaTok)

/-- `UID_INPUT_RE.exec`: `some g` with `g` the content of capture
group 1 when the whole subject matches, `none` otherwise. -/
def uidCapture : List Char → Option (List Char)
  | c1 :: c2 :: c3 :: rest =>
    if lowerAscii c1 = 'c' ∧ lowerAscii c2 = 'h' ∧ lowerAscii c3 = 'e' then
      match chompDigitUnits 9 (rest.dropWhile isSepAfterChe) with
      | some (g, r) =>
        if r = [] ∨ matchesSuffixJs r = true then some g else none
      | none => none
    else none
  | _ => none

/-! ### The UID utilities of `src/uid.ts` -/

/-- `replaceAll(/\D/g, '')`: remove every non-digit character. -/
def stripNonDigits (s : List Char) : List Char :=
  s.filter isJsDigit

/-- `UID_CORE_RE.test`: the string is exactly nine ASCII digits
(`/^\d{9}$/`). -/
def testUidCore (s : List Char) : Bool :=
  decide (s.length = 9) && s.all isJsDigit

/-- `normalizeUid` from `src/uid.ts`: reject the empty (falsy) string,
trim, extract digits from the regex capture when `UID_INPUT_RE`
matches and from the whole trimmed input otherwise, and return them
exactly when there are nine.  The TS function is total on strings and
never throws; `none` models its `undefined`. -/
def normalizeUid (input : List Char) : Option (List Char) :=
  if input = [] then none
  else
    let trimmed := trimJs input
    let digits :=
      stripNonDigits (match uidCapture trimmed with
        | some g => g
        | none => trimmed)
    if testUidCore digits then some digits else none

/-- `formatUid` from `src/uid.ts`: canonical display form
`CHE-` + `slice(0,3)` + `.` + `slice(3,6)` + `.` + `slice(6)` of the
normalized core, or the input unchanged when normalisation fails (a
successful core is nine digits long, hence never falsy). -/
def formatUid (input : List Char) : List Char :=
  match normalizeUid input with
  | none => input
  | some core =>
    "CHE-".toList ++ core.take 3 ++ ".".toList ++
      (core.drop 3).take 3 ++ ".".toList ++ core.drop 6

/-- `isValidUidFormat` from `src/uid.ts`. -/
def isValidUidFormat (input : List Char) : Bool :=
  (normalizeUid input).isSome

/-- `uidEquals` from `src/uid.ts`:
`normalizedA !== undefined && normalizedA === normalizedB`. -/
def uidEquals (a b : List Char) : Bool :=
  (normalizeUid a).isSome && decide (normalizeUid a = normalizeUid b)

/-- The canonical form `CHE-DDD.DDD.DDD` of the spec, assembled from
its three digit groups. -/
def mkCanonicalUid (g1 g2 g3 : List Char) : List Char :=
  "CHE-".toList ++ g1 ++ ".".toList ++ g2 ++ ".".toList ++ g3

/-! ### Base64 (`src/utils/node-or-worker.ts`)

`toBase64` picks the first available primitive: `btoa` (Workers or
browser-like hosts) encoding the string's code units as Latin-1 bytes
and throwing `InvalidCharacterError` on any code point above U+00FF;
else Node's `Buffer.from(s, 'utf-8').toString('base64')` encoding the
UTF-8 bytes; else it throws `Error('No base64 encoding available in
this environment')`.  The host capability is modelled by `B64Env`. -/

/-- The standard base64 alphabet. -/
def b64Alphabet : List Char :=
  "ABCDEFGHIJKLMNOPQRSTUVWXYZabcdefghijklmnopqrstuvwxyz0123456789+/".toList

/-- Character of the base64 alphabet at a 6-bit index. -/
def b64CharAt (n : Nat) : Char :=
  b64Alphabet.getD n 'A'

/-- Standard base64 of a byte sequence, with `=` padding. -/
def base64Encode : List Nat → List Char
  | [] => []
  | [a] => [b64CharAt (a / 4), b64CharAt (a % 4 * 16), '=', '=']
  | [a, b] =>
    [b64CharAt (a / 4), b64CharAt (a % 4 * 16 + b / 16),
      b64CharAt (b % 16 * 4), '=']
  | a :: b :: c :: rest =>
    b64CharAt (a / 4) :: b64CharAt (a % 4 * 16 + b / 16) ::
      b64CharAt (b % 16 * 4 + c / 64) :: b64CharAt (c % 64) ::
        base64Encode rest

/-- UTF-8 bytes of one Unicode scalar value. -/
def utf8BytesOfChar (n : Nat) : List Nat :=
  if n < 128 then [n]
  else if n < 2048 then [192 + n / 64, 128 + n % 64]
  else if n < 65536 then [224 + n / 4096, 128 + n / 64 % 64, 128 + n % 64]
  else [240 + n / 262144, 128 + n / 4096 % 64, 128 + n / 64 % 64,
    128 + n % 64]

/-- UTF-8 byte sequence of a string (the encoding applied by
`Buffer.from(s, 'utf-8')`). -/
def utf8Bytes (s : List Char) : List Nat :=
  s.flatMap (fun c => utf8BytesOfChar c.toNat)

/-- `btoa` byte extraction: the code units as Latin-1 bytes, defined
only when every code point is at most U+00FF. -/
def latin1Bytes (s : List Char) : Option (List Nat) :=
  if s.all (fun c => decide (c.toNat ≤ 255)) then
    some (s.map (fun c => c.toNat))
  else none

/-- Which encoding primitive the host offers: `btoa` first (Workers or
browser-like), else Node's `Buffer`, else none. -/
inductive B64Env where
  | workers
  | node
  | neither

/-- The two errors `toBase64` can raise: `btoa`'s
`InvalidCharacterError` on a code point above U+00FF, and the explicit
`Error` thrown when no primitive exists. -/
inductive B64Err where
  | invalidCharacter
  | noEncodingPrimitive

/-- `toBase64` from `src/utils/node-or-worker.ts`, parametrised by the
host environment. -/
def toBase64 (env : B64Env) (s : List Char) : Except B64Err (List Char) :=
  match env with
  | B64Env.workers =>
    match latin1Bytes s with
    | some bs => Except.ok (base64Encode bs)
    | none => Except.error B64Err.invalidCharacter
  | B64Env.node => Except.ok (base64Encode (utf8Bytes s))
  | B64Env.neither => Except.error B64Err.noEncodingPrimitive

/-! ### The request interceptor of `ZefixApiClient` (`src/client.ts`)

The interceptor first injects the Basic-Auth header when both
credentials are truthy, then enforces the minimum request interval. -/

/-- The `auth` configuration: optional `username` / `password`. -/
structure AuthCfg where
  username : Option (List Char)
  password : Option (List Char)

/-- JS truthiness of `config.auth?.username && config.auth?.password`:
both fields present and non-empty. -/
def authEnabled : Option AuthCfg → Bool
  | none => false
  | some au =>
    (match au.username with
      | some u => !u.isEmpty
      | none => false) &&
    (match au.password with
      | some p => !p.isEmpty
      | none => false)

/-- The `Authorization` header name. -/
def authzName : List Char := "Authorization".toList

/-- `Headers.set`: replace any entry whose name matches
case-insensitively, appending the new pair. -/
def headersSet (hs : List (List Char × List Char)) (name value : List Char) :
    List (List Char × List Char) :=
  (hs.filter fun kv =>
    !(decide (kv.1.map lowerAscii = name.map lowerAscii))) ++ [(name, value)]

/-- The auth block of the interceptor: when both username and password
are truthy, set `Authorization: Basic <toBase64(user + ':' + pass)>`;
otherwise leave the headers untouched.  `toBase64`'s possible raise
propagates out of the interceptor. -/
def applyAuthBlock (env : B64Env) (auth : Option AuthCfg)
    (hs : List (List Char × List Char)) :
    Except B64Err (List (List Char × List Char)) :=
  match auth with
  | some ⟨some u, some p⟩ =>
    if !u.isEmpty && !p.isEmpty then
      match toBase64 env (u ++ ':' :: p) with
      | Except.ok cred =>
        Except.ok (headersSet hs authzName ("Basic ".toList ++ cred))
      | Except.error e => Except.error e
    else Except.ok hs
  | _ => Except.ok hs

/-! ### The throttle block

`Date.now()` readings are modelled as integers (milliseconds).  The
throttle block reads `now`, computes `elapsed = now - lastRequestTime`,
sleeps `minIntervalMs - elapsed` when `elapsed < minIntervalMs`, then
writes `lastRequestTime = Date.now()`; in an uninterleaved execution
with an exact timer that second reading is `now + wait`, which is both
the dispatch instant and the stored timestamp. -/

/-- One uninterleaved run of the throttle block (guarded by
`minIntervalMs > 0` in the source): the resulting `Date.now()` value
after the wait, used as dispatch timestamp and as the new
`lastRequestTime`. -/
def throttleSeq (minInterval time last : Int) : Int :=
  if time - last < minInterval then time + (minInterval - (time - last))
  else time

/-- The synchronous phase of one throttle-block execution, up to its
only suspension point.  When `elapsed < minIntervalMs` the call
registers a timer for `time + (minIntervalMs - elapsed)` and suspends
WITHOUT having written `lastRequestTime` (the write happens after the
`await`); when `elapsed ≥ minIntervalMs` the block runs to completion
synchronously and writes `lastRequestTime = time`.  Returns
(`some wake` or `none`, the value of `lastRequestTime` after the
synchronous phase). -/
def throttleSyncPhase (minInterval time last : Int) : Option Int × Int :=
  if time - last < minInterval then
    (some (time + (minInterval - (time - last))), last)
  else (none, time)

/-- Event-loop phase A for `n` decorate calls issued in the same tick
at time `t0` on one client instance: each call runs its synchronous
phase in order, observing the `lastRequestTime` left by the previous
synchronous phases (sleepers have not written yet).  Returns the
immediate dispatch timestamps, the registered wake times, and the final
`lastRequestTime`. -/
def concPhaseA (minInterval t0 : Int) : Nat → Int → List Int × List Int × Int
  | 0, last => ([], [], last)
  | k + 1, last =>
    match throttleSyncPhase minInterval t0 last with
    | (some w, l') =>
      match concPhaseA minInterval t0 k l' with
      | (ds, ws, lf) => (ds, w :: ws, lf)
    | (none, l') =>
      match concPhaseA minInterval t0 k l' with
      | (ds, ws, lf) => (t0 :: ds, ws, lf)

/-- The dispatch timestamps of `n` decorate calls issued concurrently
in the same tick at `t0` through one instance (initial
`lastRequestTime = last0`): the synchronous dispatches at `t0`, then
each sleeper dispatching at its wake time (each writes
`lastRequestTime := wake` on resume; nothing reads it afterwards in
this run). -/
def runConcurrent (minInterval t0 last0 : Int) (n : Nat) : List Int :=
  match concPhaseA minInterval t0 n last0 with
  | (ds, ws, _) => ds ++ ws

/-- Check that consecutive dispatch timestamps are at least
`minInterval` apart. -/
def gapsOkay (minInterval : Int) : List Int → Bool
  | [] => true
  | [_] => true
  | a :: b :: rest => decide (a + minInterval ≤ b) && gapsOkay minInterval (b :: rest)

/-! ### The shared module client

Every `ZefixApiClient` constructor calls
`client.interceptors.request.use(...)` on the module-level `client`
singleton imported from `generated/client.gen`, so the interceptors of
ALL constructed instances run, in registration order, for every request
issued through any of them.  Each interceptor closes over its own
instance's `config.throttle.minIntervalMs` (`none` when unset) and its
own `lastRequestTime` field. -/

/-- Run the registered interceptor chain for one request starting at
`time`: each interceptor applies its throttle block (when configured
with a positive interval) to the running clock and its own
`lastRequestTime`.  Returns the dispatch timestamp after the last
interceptor and the updated per-instance `lastRequestTime` values. -/
def runSharedInterceptors : List (Option Int) → List Int → Int → Int × List Int
  | [], _, time => (time, [])
  | _ :: _, [], time => (time, [])
  | cfg :: cfgs, last :: lasts, time =>
    let step : Int × Int :=
      match cfg with
      | some minInterval =>
        if 0 < minInterval then
          (throttleSeq minInterval time last, throttleSeq minInterval time last)
        else (time, last)
      | none => (time, last)
    match runSharedInterceptors cfgs lasts step.1 with
    | (tf, ls) => (tf, step.2 :: ls)

/-! ### Error utilities

A small model of JS values carried in error bodies. -/

/-- A JS value as far as the error paths inspect one. -/
inductive JVal where
  | jNull
  | jBool (b : Bool)
  | jNum (n : Int)
  | jStr (s : List Char)
  | jObj (fields : List (List Char × JVal))

/-- JS truthiness of a value. -/
def jTruthy : JVal → Bool
  | JVal.jNull => false
  | JVal.jBool b => b
  | JVal.jNum n => decide (n ≠ 0)
  | JVal.jStr s => !s.isEmpty
  | JVal.jObj _ => true

/-- JS truthiness of a possibly-absent value (absent is falsy). -/
def optTruthy : Option JVal → Bool
  | none => false
  | some v => jTruthy v

/-- The `headers` object key. -/
def headersKey : List Char := "headers".toList

/-- The lower-case `authorization` key. -/
def authzLowerKey : List Char := "authorization".toList

/-- The fixed redaction marker written over auth header values. -/
def redactedMarker : List Char := "[REDACTED]".toList

/-- Property read `obj[k]` on an object's field list. -/
def lookupField : List (List Char × JVal) → List Char → Option JVal
  | [], _ => none
  | kv :: rest, k => if kv.1 = k then some kv.2 else lookupField rest k

/-- Property assignment `obj[k] = v` on an existing key. -/
def setField : List (List Char × JVal) → List Char → JVal →
    List (List Char × JVal)
  | [], _, _ => []
  | kv :: rest, k, v =>
    if kv.1 = k then (kv.1, v) :: setField rest k v
    else kv :: setField rest k v

/-- The header-redaction of the index-module `ZefixError` constructor:
replace the values at the exact keys `Authorization` and
`authorization` by the marker (guarded by `in` checks in the source,
equivalent to this map). -/
def redactHeaders (hfields : List (List Char × JVal)) :
    List (List Char × JVal) :=
  hfields.map fun kv =>
    if kv.1 = authzName ∨ kv.1 = authzLowerKey then
      (kv.1, JVal.jStr redactedMarker)
    else kv

/-- The `body` stored by the index-module `ZefixError` constructor:
when the body is a (truthy) object with a `headers` key whose value is
an object, a copy with redacted headers is stored; a `null` headers
value passes the `typeof` check and `{...null}` turns it into an empty
object; any other body is stored as given. -/
def zefixErrorBody : Option JVal → Option JVal
  | some (JVal.jObj fields) =>
    match lookupField fields headersKey with
    | some (JVal.jObj hfields) =>
      some (JVal.jObj (setField fields headersKey
        (JVal.jObj (redactHeaders hfields))))
    | some JVal.jNull =>
      some (JVal.jObj (setField fields headersKey (JVal.jObj [])))
    | some _ => some (JVal.jObj fields)
    | none => some (JVal.jObj fields)
  | body => body

/-- The `ZefixError` of `utils/errors.ts`: message, optional status,
optional code, and details stored verbatim by the constructor — it
performs no redaction of any kind. -/
structure ZefixErrorUtils where
  message : List Char
  status : Option Int
  code : Option (List Char)
  details : Option JVal

/-- Constructor of the `utils/errors.ts` `ZefixError`: plain field
assignment. -/
def mkZefixErrorUtils (message : List Char) (status : Option Int)
    (code : Option (List Char)) (details : Option JVal) : ZefixErrorUtils :=
  ⟨message, status, code, details⟩

/-- `ZefixError.fromResponse` of `utils/errors.ts`:
`new ZefixError('ZEFIX API Error: <status> <statusText>', status,
undefined, response.error)`. -/
def zefixErrorFromResponse (status : Int) (statusText : List Char)
    (error : Option JVal) : ZefixErrorUtils :=
  mkZefixErrorUtils
    ("ZEFIX API Error: ".toList ++ (toString status).toList ++
      ' ' :: statusText)
    (some status) none error

mutual

/-- All string atoms reachable in a value (what a JSON serialisation
of it contains as string data). -/
def jStrings : JVal → List (List Char)
  | JVal.jStr s => [s]
  | JVal.jObj fields => jStringsOfFields fields
  | _ => []

/-- String atoms of an object's field values. -/
def jStringsOfFields : List (List Char × JVal) → List (List Char)
  | [] => []
  | kv :: rest => jStrings kv.2 ++ jStringsOfFields rest

end

/-- The `{data?, error?, response}` envelope consumed by the
`utils/errors.ts` `ensureOk`. -/
structure UtilsResponseMeta where
  status : Int
  statusText : List Char
  ok : Bool

/-- An API response as `ensureOk` (utils variant) sees it. -/
structure UtilsApiResponse where
  data : Option JVal
  error : Option JVal
  response : UtilsResponseMeta

/-- `ensureOk` from `utils/errors.ts`: throw `fromResponse` when
`result.error` is truthy, throw a `NO_DATA` `ZefixError` when
`result.data` is falsy or missing, else return the data. -/
def ensureOkUtils (r : UtilsApiResponse) : Except ZefixErrorUtils JVal :=
  if optTruthy r.error then
    Except.error (zefixErrorFromResponse r.response.status
      r.response.statusText r.error)
  else
    match r.data with
    | some d =>
      if jTruthy d then Except.ok d
      else Except.error (mkZefixErrorUtils ("No data in response".toList)
        (some r.response.status) (some ("NO_DATA".toList)) none)
    | none =>
      Except.error (mkZefixErrorUtils ("No data in response".toList)
        (some r.response.status) (some ("NO_DATA".toList)) none)

/-- The header object of the redaction scenario exercised by the repo's
own test: an `Authorization` credential next to an innocuous header. -/
def c8Hdrs : List (List Char × JVal) :=
  [(authzName, JVal.jStr ("Basic secret123".toList)),
   ("Content-Type".toList, JVal.jStr ("application/json".toList))]

/-- An error body carrying those headers. -/
def c8Fields : List (List Char × JVal) := [(headersKey, JVal.jObj c8Hdrs)]

/-- A response whose `error` field is present but falsy (`0`) while
`data` is truthy. -/
def c10FalsyErr : UtilsApiResponse :=
  ⟨some (JVal.jStr ("x".toList)), some (JVal.jNum 0), ⟨200, "OK".toList, true⟩⟩

/-- A successful response with falsy data (the empty string). -/
def c10EmptyData : UtilsApiResponse :=
  ⟨some (JVal.jStr []), none, ⟨200, "OK".toList, true⟩⟩

/-! ### Character-class facts -/

theorem isJsSpace_not_digit {c : Char} (h : isJsSpace c = true) :
    isJsDigit c = false := by
  simp only [isJsSpace, decide_eq_true_eq] at h
  simp only [isJsDigit, decide_eq_false_iff_not]
  omega

theorem isDotSpace_not_digit {c : Char} (h : isDotSpace c = true) :
    isJsDigit c = false := by
  simp only [isDotSpace, isJsSpace, Bool.or_eq_true, decide_eq_true_eq] at h
  simp only [isJsDigit, decide_eq_false_iff_not]
  omega

theorem isSepAfterChe_not_digit {c : Char} (h : isSepAfterChe c = true) :
    isJsDigit c = false := by
  simp only [isSepAfterChe, isJsSpace, Bool.or_eq_true, decide_eq_true_eq] at h
  simp only [isJsDigit, decide_eq_false_iff_not]
  omega

theorem isJsDigit_not_space {c : Char} (h : isJsDigit c = true) :
    isJsSpace c = false := by
  simp only [isJsDigit, decide_eq_true_eq] at h
  simp only [isJsSpace, decide_eq_false_iff_not]
  omega

theorem lowerAscii_of_digit {c : Char} (h : isJsDigit c = true) :
    lowerAscii c = c := by
  simp only [isJsDigit, decide_eq_true_eq] at h
  unfold lowerAscii
  rw [if_neg (by omega)]

/-- A character whose ASCII lower-casing is a non-digit is itself a
non-digit (digits are fixed by `lowerAscii`). -/
theorem lower_letter_not_digit {c d : Char} (h : lowerAscii c = d)
    (hd : isJsDigit d = false) : isJsDigit c = false := by
  cases hcd : isJsDigit c with
  | false => rfl
  | true =>
    rw [lowerAscii_of_digit hcd] at h
    rw [h] at hcd
    rw [hd] at hcd
    exact Bool.noConfusion hcd

theorem token_chars_not_digit {c : Char}
    (h : c ∈ mwstTok ∨ c ∈ tvaTok ∨ c ∈ ivaTok) : isJsDigit c = false := by
  simp only [mwstTok, tvaTok, ivaTok, List.mem_cons, List.not_mem_nil,
    or_false] at h
  rcases h with (rfl | rfl | rfl | rfl) | (rfl | rfl | rfl) |
    (rfl | rfl | rfl) <;> rfl

/-! ### Digit extraction facts about the regex matcher -/

theorem stripNonDigits_all (s : List Char) :
    (stripNonDigits s).all isJsDigit = true := by
  rw [List.all_eq_true]
  intro a ha
  exact (List.mem_filter.mp ha).2

/-- Filtering digits out of a run of `[\s.]` separators leaves
nothing. -/
theorem filter_takeWhile_dotSpace (s : List Char) :
    (s.takeWhile isDotSpace).filter isJsDigit = [] := by
  apply List.filter_eq_nil_iff.mpr
  intro a ha
  simp [isDotSpace_not_digit (List.mem_takeWhile_imp ha)]

theorem matchesSuffix_strip {r : List Char} (h : matchesSuffixJs r = true) :
    stripNonDigits r = [] := by
  have hsplit : r.takeWhile isJsSpace ++ r.dropWhile isJsSpace = r :=
    List.takeWhile_append_dropWhile isJsSpace r
  simp only [matchesSuffixJs, Bool.or_eq_true, decide_eq_true_eq] at h
  rw [stripNonDigits, ← hsplit, List.filter_append]
  have h1 : (r.takeWhile isJsSpace).filter isJsDigit = [] := by
    apply List.filter_eq_nil_iff.mpr
    intro a ha
    simp [isJsSpace_not_digit (List.mem_takeWhile_imp ha)]
  have h2 : (r.dropWhile isJsSpace).filter isJsDigit = [] := by
    apply List.filter_eq_nil_iff.mpr
    intro a ha
    have hmem : lowerAscii a ∈ (r.dropWhile isJsSpace).map lowerAscii :=
      List.mem_map_of_mem lowerAscii ha
    have hnd : isJsDigit (lowerAscii a) = false := by
      rcases h with (h | h) | h
      · rw [h] at hmem
        exact token_chars_not_digit (Or.inl hmem)
      · rw [h] at hmem
        exact token_chars_not_digit (Or.inr (Or.inl hmem))
      · rw [h] at hmem
        exact token_chars_not_digit (Or.inr (Or.inr hmem))
    simp [lower_letter_not_digit rfl hnd]
  rw [h1, h2]
  rfl

theorem chompDigitUnits_append :
    ∀ (n : Nat) (s g r : List Char),
      chompDigitUnits n s = some (g, r) → s = g ++ r := by
  intro n
  induction n with
  | zero =>
    intro s g r h
    simp only [chompDigitUnits, Option.some.injEq, Prod.mk.injEq] at h
    rw [← h.1, ← h.2]
    rfl
  | succ m ih =>
    intro s g r h
    cases s with
    | nil => exact absurd h (by simp [chompDigitUnits])
    | cons c s' =>
      simp only [chompDigitUnits] at h
      by_cases hd : isJsDigit c
      · rw [if_pos hd] at h
        cases hm : chompDigitUnits m (s'.dropWhile isDotSpace) with
        | none => rw [hm] at h; exact absurd h (by simp)
        | some pr =>
          obtain ⟨g', r'⟩ := pr
          rw [hm] at h
          simp only [Option.some.injEq, Prod.mk.injEq] at h
          rw [← h.1, ← h.2]
          have hrec := ih _ _ _ hm
          calc c :: s'
              = c :: (s'.takeWhile isDotSpace ++ s'.dropWhile isDotSpace) := by
                rw [List.takeWhile_append_dropWhile]
            _ = c :: (s'.takeWhile isDotSpace ++ (g' ++ r')) := by rw [← hrec]
            _ = (c :: (s'.takeWhile isDotSpace ++ g')) ++ r' := by simp
      · rw [if_neg hd] at h
        exact absurd h (by simp)

theorem chompDigitUnits_filter_length :
    ∀ (n : Nat) (s g r : List Char),
      chompDigitUnits n s = some (g, r) →
        (g.filter isJsDigit).length = n := by
  intro n
  induction n with
  | zero =>
    intro s g r h
    simp only [chompDigitUnits, Option.some.injEq, Prod.mk.injEq] at h
    rw [← h.1]
    rfl
  | succ m ih =>
    intro s g r h
    cases s with
    | nil => exact absurd h (by simp [chompDigitUnits])
    | cons c s' =>
      simp only [chompDigitUnits] at h
      by_cases hd : isJsDigit c
      · rw [if_pos hd] at h
        cases hm : chompDigitUnits m (s'.dropWhile isDotSpace) with
        | none => rw [hm] at h; exact absurd h (by simp)
        | some pr =>
          obtain ⟨g', r'⟩ := pr
          rw [hm] at h
          simp only [Option.some.injEq, Prod.mk.injEq] at h
          rw [← h.1]
          have hrec := ih _ _ _ hm
          simp [List.filter_cons, hd, List.filter_append,
            filter_takeWhile_dotSpace, hrec]
      · rw [if_neg hd] at h
        exact absurd h (by simp)

/-- Whenever `UID_INPUT_RE` matches, the digits of capture group 1 are
exactly the digits of the whole subject, and there are nine of them
(the `che` literal, the separators and the VAT suffix contain no
digits). -/
theorem uidCapture_strip :
    ∀ (s g : List Char), uidCapture s = some g →
      stripNonDigits s = stripNonDigits g ∧
        (stripNonDigits g).length = 9 := by
  intro s g h
  cases s with
  | nil => exact absurd h (by simp [uidCapture])
  | cons c1 t1 =>
    cases t1 with
    | nil => exact absurd h (by simp [uidCapture])
    | cons c2 t2 =>
      cases t2 with
      | nil => exact absurd h (by simp [uidCapture])
      | cons c3 rest =>
        simp only [uidCapture] at h
        by_cases hche : lowerAscii c1 = 'c' ∧ lowerAscii c2 = 'h' ∧
            lowerAscii c3 = 'e'
        · rw [if_pos hche] at h
          cases hm : chompDigitUnits 9 (rest.dropWhile isSepAfterChe) with
          | none => rw [hm] at h; exact absurd h (by simp)
          | some pr =>
            obtain ⟨g', r'⟩ := pr
            rw [hm] at h
            dsimp only at h
            by_cases hr : r' = [] ∨ matchesSuffixJs r' = true
            · rw [if_pos hr, Option.some.injEq] at h
              subst h
              have hdec := chompDigitUnits_append _ _ _ _ hm
              have hlen := chompDigitUnits_filter_length _ _ _ _ hm
              constructor
              · have hc1 : isJsDigit c1 = false :=
                  lower_letter_not_digit hche.1 rfl
                have hc2 : isJsDigit c2 = false :=
                  lower_letter_not_digit hche.2.1 rfl
                have hc3 : isJsDigit c3 = false :=
                  lower_letter_not_digit hche.2.2 rfl
                have hrest : rest.takeWhile isSepAfterChe ++
                    rest.dropWhile isSepAfterChe = rest :=
                  List.takeWhile_append_dropWhile isSepAfterChe rest
                have hsep : (rest.takeWhile isSepAfterChe).filter
                    isJsDigit = [] := by
                  apply List.filter_eq_nil_iff.mpr
                  intro a ha
                  simp [isSepAfterChe_not_digit (List.mem_takeWhile_imp ha)]
                have hsuffix : r'.filter isJsDigit = [] := by
                  rcases hr with hr | hr
                  · rw [hr]; rfl
                  · exact matchesSuffix_strip hr
                have hmain : rest.filter isJsDigit = g'.filter isJsDigit := by
                  conv_lhs => rw [← hrest]
                  rw [List.filter_append, hsep, hdec, List.filter_append,
                    hsuffix]
                  simp
                simp only [stripNonDigits, List.filter_cons, hc1, hc2, hc3,
                  Bool.false_eq_true, if_false]
                exact hmain
              · exact hlen
            · rw [if_neg hr] at h
              exact absurd h (by simp)
        · rw [if_neg hche] at h
          exact absurd h (by simp)

/-- `normalizeUid` collapses to one condition: the trimmed input,
stripped of all non-digits, must have exactly nine characters, and the
result is that digit string.  (When the regex matches, the digits of
its capture equal the digits of the whole trimmed input.) -/
theorem normalizeUid_eq (input : List Char) :
    normalizeUid input =
      if (stripNonDigits (trimJs input)).length = 9
      then some (stripNonDigits (trimJs input)) else none := by
  by_cases hemp : input = []
  · subst hemp
    rfl
  · unfold normalizeUid
    rw [if_neg hemp]
    dsimp only
    cases hc : uidCapture (trimJs input) with
    | some g =>
      dsimp only
      obtain ⟨hstrip, hlen⟩ := uidCapture_strip _ _ hc
      have htest : testUidCore (stripNonDigits g) = true := by
        simp [testUidCore, hlen, stripNonDigits_all]
      rw [if_pos htest, hstrip, if_pos hlen]
    | none =>
      dsimp only
      have htest : testUidCore (stripNonDigits (trimJs input)) =
          decide ((stripNonDigits (trimJs input)).length = 9) := by
        simp [testUidCore, stripNonDigits_all]
      by_cases hlen : (stripNonDigits (trimJs input)).length = 9
      · rw [if_pos (by simp [htest, hlen]), if_pos hlen]
      · rw [if_neg (by simp [htest, hlen]), if_neg hlen]

/-! ### Trim and strip on benign strings -/

theorem dropWhile_eq_self_of_false {p : Char → Bool} {s : List Char}
    (h : ∀ c ∈ s, p c = false) : s.dropWhile p = s := by
  cases s with
  | nil => rfl
  | cons a t => simp [List.dropWhile_cons, h a (by simp)]

theorem trimJs_eq_self {s : List Char}
    (h : ∀ c ∈ s, isJsSpace c = false) : trimJs s = s := by
  unfold trimJs
  rw [dropWhile_eq_self_of_false h,
    dropWhile_eq_self_of_false (fun c hc => h c (List.mem_reverse.mp hc)),
    List.reverse_reverse]

theorem stripNonDigits_of_digits {s : List Char}
    (h : ∀ c ∈ s, isJsDigit c = true) : stripNonDigits s = s :=
  List.filter_eq_self.mpr h

/-- A string of nine digits normalises to itself. -/
theorem normalizeUid_of_digits {s : List Char} (hlen : s.length = 9)
    (hdig : ∀ c ∈ s, isJsDigit c = true) : normalizeUid s = some s := by
  rw [normalizeUid_eq,
    trimJs_eq_self (fun c hc => isJsDigit_not_space (hdig c hc)),
    stripNonDigits_of_digits hdig, if_pos hlen]

/-! ### Claim theorems for the UID normaliser -/

/-- C1: `normalizeUid` is total (the Lean embedding is a total
function, matching the never-throwing TS source) and returns a present
value exactly when the trimmed input matches `UID_INPUT_RE` or, the
pattern failing, when stripping all non-digits from the whole trimmed
input leaves exactly nine digits; every present result is exactly the
nine ASCII digits of the trimmed input, with no separators or prefix,
and every other input (empty included) yields `none`. -/
theorem c1_normalizeUid_acceptance (input : List Char) :
    ((normalizeUid input).isSome ↔
      ((uidCapture (trimJs input)).isSome ∨
        (uidCapture (trimJs input) = none ∧
          (stripNonDigits (trimJs input)).length = 9)))
    ∧ (∀ r, normalizeUid input = some r →
        r = stripNonDigits (trimJs input) ∧ r.length = 9 ∧
          r.all isJsDigit = true) := by
  rw [normalizeUid_eq]
  constructor
  · by_cases hlen : (stripNonDigits (trimJs input)).length = 9
    · rw [if_pos hlen]
      simp only [Option.isSome_some, true_iff]
      cases hc : uidCapture (trimJs input) with
      | some g => exact Or.inl (by simp)
      | none => exact Or.inr ⟨rfl, hlen⟩
    · rw [if_neg hlen]
      simp only [Option.isSome_none, Bool.false_eq_true, false_iff]
      intro hcon
      rcases hcon with hcap | ⟨_, hl⟩
      · obtain ⟨g, hg⟩ := Option.isSome_iff_exists.mp hcap
        obtain ⟨hstrip, hlg⟩ := uidCapture_strip _ _ hg
        exact hlen (by rw [hstrip]; exact hlg)
      · exact hlen hl
  · intro r hr
    by_cases hlen : (stripNonDigits (trimJs input)).length = 9
    · rw [if_pos hlen, Option.some.injEq] at hr
      subst hr
      exact ⟨rfl, hlen, stripNonDigits_all _⟩
    · rw [if_neg hlen] at hr
      exact absurd hr (by simp)

/-- C1 witness: evaluating the characterisation at
`"che 123 456 789 mwst"`. -/
theorem c1_normalizeUid_acceptance_witness :
    "123456789".toList = stripNonDigits (trimJs
      ("che 123 456 789 mwst".toList)) ∧
    ("123456789".toList).length = 9 ∧
    ("123456789".toList).all isJsDigit = true :=
  (c1_normalizeUid_acceptance ("che 123 456 789 mwst".toList)).2
    ("123456789".toList) (by decide)

/-- C2: every canonical string `CHE-DDD.DDD.DDD` normalises to its nine
digits concatenated, and `formatUid` of that normalized value
reproduces the canonical string exactly. -/
theorem c2_canonical_roundtrip (g1 g2 g3 : List Char)
    (h1 : g1.length = 3) (h2 : g2.length = 3) (h3 : g3.length = 3)
    (hd1 : ∀ c ∈ g1, isJsDigit c = true)
    (hd2 : ∀ c ∈ g2, isJsDigit c = true)
    (hd3 : ∀ c ∈ g3, isJsDigit c = true) :
    normalizeUid (mkCanonicalUid g1 g2 g3) = some (g1 ++ g2 ++ g3) ∧
    formatUid (g1 ++ g2 ++ g3) = mkCanonicalUid g1 g2 g3 := by
  have hdigits : ∀ c ∈ g1 ++ g2 ++ g3, isJsDigit c = true := by
    intro c hc
    rcases List.mem_append.mp hc with hc | hc
    · rcases List.mem_append.mp hc with hc | hc
      · exact hd1 c hc
      · exact hd2 c hc
    · exact hd3 c hc
  have hlen : (g1 ++ g2 ++ g3).length = 9 := by
    simp [h1, h2, h3]
  have hnospace : ∀ c ∈ mkCanonicalUid g1 g2 g3, isJsSpace c = false := by
    intro c hc
    simp only [mkCanonicalUid, List.append_assoc, List.mem_append] at hc
    rcases hc with hc | hc | hc | hc | hc | hc
    · rcases hc with hc
      fin_cases hc <;> rfl
    · exact isJsDigit_not_space (hd1 c hc)
    · fin_cases hc
      rfl
    · exact isJsDigit_not_space (hd2 c hc)
    · fin_cases hc
      rfl
    · exact isJsDigit_not_space (hd3 c hc)
  have hstrip : stripNonDigits (mkCanonicalUid g1 g2 g3) =
      g1 ++ g2 ++ g3 := by
    have hche : List.filter isJsDigit ("CHE-".toList) = [] := by decide
    have hdot : List.filter isJsDigit (".".toList) = [] := by decide
    simp only [mkCanonicalUid, stripNonDigits, List.filter_append,
      List.append_assoc, hche, hdot]
    rw [List.filter_eq_self.mpr hd1, List.filter_eq_self.mpr hd2,
      List.filter_eq_self.mpr hd3]
    simp
  have hfirst : normalizeUid (mkCanonicalUid g1 g2 g3) =
      some (g1 ++ g2 ++ g3) := by
    rw [normalizeUid_eq, trimJs_eq_self hnospace, hstrip, if_pos hlen]
  refine ⟨hfirst, ?_⟩
  have hnorm : normalizeUid (g1 ++ g2 ++ g3) = some (g1 ++ g2 ++ g3) :=
    normalizeUid_of_digits hlen hdigits
  have htake1 : (g1 ++ g2 ++ g3).take 3 = g1 := by
    rw [List.append_assoc]
    exact List.take_left' h1
  have hdrop3 : (g1 ++ g2 ++ g3).drop 3 = g2 ++ g3 := by
    rw [List.append_assoc]
    exact List.drop_left' h1
  have htake2 : ((g1 ++ g2 ++ g3).drop 3).take 3 = g2 := by
    rw [hdrop3]
    exact List.take_left' h2
  have hdrop6 : (g1 ++ g2 ++ g3).drop 6 = g3 := by
    have hdd := List.drop_drop 3 3 (g1 ++ g2 ++ g3)
    rw [hdrop3, List.drop_left' h2] at hdd
    exact hdd.symm
  rw [formatUid, hnorm]
  dsimp only
  rw [htake1, htake2, hdrop6, mkCanonicalUid]

/-- C2 witness: the round trip at `CHE-123.456.789`. -/
theorem c2_canonical_roundtrip_witness :
    normalizeUid (mkCanonicalUid ("123".toList) ("456".toList)
      ("789".toList)) =
      some ("123".toList ++ "456".toList ++ "789".toList) ∧
    formatUid ("123".toList ++ "456".toList ++ "789".toList) =
      mkCanonicalUid ("123".toList) ("456".toList) ("789".toList) :=
  c2_canonical_roundtrip ("123".toList) ("456".toList) ("789".toList)
    (by decide) (by decide) (by decide) (by decide) (by decide) (by decide)

/-- C3: `uidEquals` is symmetric on all string pairs, returns `false`
whenever either side fails to normalise (even on textually identical
invalid inputs such as `"invalid"`), and is reflexive on inputs that do
normalise. -/
theorem c3_uidEquals_properties :
    (∀ a b, uidEquals a b = uidEquals b a) ∧
    (∀ a b, normalizeUid a = none ∨ normalizeUid b = none →
      uidEquals a b = false) ∧
    (∀ a, (normalizeUid a).isSome = true → uidEquals a a = true) ∧
    uidEquals ("invalid".toList) ("invalid".toList) = false := by
  refine ⟨?_, ?_, ?_, by decide⟩
  · intro a b
    cases ha : normalizeUid a with
    | none =>
      cases hb : normalizeUid b with
      | none => simp [uidEquals, ha, hb]
      | some y => simp [uidEquals, ha, hb]
    | some x =>
      cases hb : normalizeUid b with
      | none => simp [uidEquals, ha, hb]
      | some y =>
        by_cases hxy : x = y
        · subst hxy
          simp [uidEquals, ha, hb]
        · simp [uidEquals, ha, hb, hxy, Ne.symm hxy]
  · intro a b hab
    rcases hab with ha | hb
    · simp [uidEquals, ha]
    · cases ha : normalizeUid a with
      | none => simp [uidEquals, ha]
      | some x => simp [uidEquals, ha, hb]
  · intro a ha
    obtain ⟨x, hx⟩ := Option.isSome_iff_exists.mp ha
    simp [uidEquals, hx]

/-- C3 witness: symmetry instances and the invalid-side rule at
concrete inputs. -/
theorem c3_uidEquals_properties_witness :
    uidEquals ("CHE-123.456.789".toList) ("short".toList) = false :=
  c3_uidEquals_properties.2.1 ("CHE-123.456.789".toList)
    ("short".toList) (Or.inr (by decide))

/-- C4: the interceptor's auth block sets
`Authorization: Basic <toBase64(user:pass)>` exactly when both
configured credentials are non-empty, and leaves the request's headers
untouched (adding no empty or partial header) when either is empty or
absent. -/
theorem c4_auth_header (env : B64Env) (auth : Option AuthCfg)
    (hs : List (List Char × List Char)) :
    (authEnabled auth = false → applyAuthBlock env auth hs = Except.ok hs) ∧
    (∀ u p, auth = some ⟨some u, some p⟩ → authEnabled auth = true →
      applyAuthBlock env auth hs =
        (toBase64 env (u ++ ':' :: p)).map
          (fun cred => headersSet hs authzName ("Basic ".toList ++ cred))) := by
  constructor
  · intro hfalse
    match auth with
    | none => rfl
    | some ⟨none, q⟩ => rfl
    | some ⟨some u, none⟩ => rfl
    | some ⟨some u, some p⟩ =>
      have hcond : (!u.isEmpty && !p.isEmpty) = false := by
        simpa [authEnabled] using hfalse
      simp [applyAuthBlock, hcond]
  · intro u p heq htrue
    subst heq
    have hcond : (!u.isEmpty && !p.isEmpty) = true := by
      simpa [authEnabled] using htrue
    simp only [applyAuthBlock, hcond, if_true]
    cases hb : toBase64 env (u ++ ':' :: p) with
    | ok cred => simp [Except.map]
    | error e => simp [Except.map]

/-- C4 witness: concrete credentials produce exactly the header value
the repo's own tests assert (`Basic dXNlcjpwYXNz`). -/
theorem c4_auth_header_witness :
    applyAuthBlock B64Env.node
      (some ⟨some ("user".toList), some ("pass".toList)⟩) [] =
      Except.ok [(authzName, "Basic dXNlcjpwYXNz".toList)] := by
  have h := (c4_auth_header B64Env.node
    (some ⟨some ("user".toList), some ("pass".toList)⟩) []).2
    ("user".toList) ("pass".toList) rfl (by decide)
  rw [h]
  rfl

/-- C5: a throttle-block run that finds `elapsed < minIntervalMs`
dispatches exactly at `now + (minIntervalMs - elapsed)` (the suspension
is exactly `minIntervalMs - elapsed` long) and stores that post-wait
instant as the new `lastRequestTime`; consequently a second sequential
run (whose clock read happens no earlier than the first dispatch) is
dispatched at least `minIntervalMs` after the first. -/
theorem c5_throttle_sequential (minInterval last now1 now2 : Int)
    (_hM : 0 < minInterval)
    (_hseq : throttleSeq minInterval now1 last ≤ now2) :
    (now1 - last < minInterval →
      throttleSeq minInterval now1 last =
        now1 + (minInterval - (now1 - last))) ∧
    throttleSeq minInterval now1 last + minInterval ≤
      throttleSeq minInterval now2 (throttleSeq minInterval now1 last) := by
  unfold throttleSeq at _hseq ⊢
  constructor
  · intro h
    rw [if_pos h]
  · split_ifs at _hseq ⊢ <;> omega

/-- C5 witness: with `M = 100`, a dispatch at 1000 followed by a call
reading the clock at 1050 dispatches at 1100 ≥ 1000 + 100. -/
theorem c5_throttle_sequential_witness :
    throttleSeq 100 1000 0 + 100 ≤
      throttleSeq 100 1050 (throttleSeq 100 1000 0) :=
  (c5_throttle_sequential 100 0 1000 1050 (by decide) (by decide)).2

/-- C6: the claim fails on the code.  Three decorate calls issued in
the same tick at `t = 1000` through one instance with
`minIntervalMs = 100` and initial `lastRequestTime = 0`: the first
completes synchronously and dispatches at 1000; the second and third
both read `lastRequestTime = 1000` before either has written (the
write happens only after the `await`), both sleep 100 ms, and both
dispatch at 1100 — two dispatches 0 ms apart, violating the claimed
≥ 100 ms spacing.  The code performs no serialisation of the
read-wait-write sequence. -/
theorem c6_concurrent_throttle_violation :
    runConcurrent 100 1000 0 3 = [1000, 1100, 1100] ∧
    gapsOkay 100 (runConcurrent 100 1000 0 3) = false := by
  exact ⟨rfl, rfl⟩

/-- C7: the claim fails on the code.  In a `btoa` host (Workers), `ä`
(U+00E4) is encoded from its Latin-1 byte as `5A==`, while the UTF-8
encoding required by the claim (and produced by the Node path) is
`w6Q=`; and `日` (U+65E5) makes the Workers path raise
`InvalidCharacterError` — a data-dependent error raised although an
encoding primitive exists (the Node path encodes the same input
fine). -/
theorem c7_toBase64_divergence :
    toBase64 B64Env.workers [Char.ofNat 228] = Except.ok ("5A==".toList) ∧
    toBase64 B64Env.node [Char.ofNat 228] = Except.ok ("w6Q=".toList) ∧
    "5A==".toList ≠ "w6Q=".toList ∧
    toBase64 B64Env.workers [Char.ofNat 26085] =
      Except.error B64Err.invalidCharacter ∧
    toBase64 B64Env.node [Char.ofNat 26085] = Except.ok ("5pel".toList) := by
  exact ⟨rfl, rfl, by decide, rfl, rfl⟩

/-- C8 counterexample: the `utils/errors.ts` `ZefixError` constructor
stores its `details` verbatim — constructing it with a body carrying an
`Authorization` header keeps the raw credential in the serialised
strings and introduces no redaction marker, so the redaction invariant
does not hold for every constructed `ZefixError`. -/
theorem c8_utils_error_no_redaction :
    (mkZefixErrorUtils ("Unauthorized".toList) (some 401)
      (some ("AUTH_ERROR".toList))
      (some (JVal.jObj c8Fields))).details = some (JVal.jObj c8Fields) ∧
    ("Basic secret123".toList) ∈ jStrings (JVal.jObj c8Fields) ∧
    redactedMarker ∉ jStrings (JVal.jObj c8Fields) := by
  refine ⟨rfl, ?_, ?_⟩
  · simp [jStrings, jStringsOfFields, c8Fields, c8Hdrs]
  · simp [jStrings, jStringsOfFields, c8Fields, c8Hdrs, redactedMarker]

/-- C8 (amended): the index-module `ZefixError` constructor replaces
the values at the `Authorization` and `authorization` keys of a
`headers` object in its body with the fixed marker at construction
time, leaving every other header entry as it was; the `utils/errors.ts`
variant performs no such redaction. -/
theorem c8_index_error_redaction (fields hfields : List (List Char × JVal))
    (hlook : lookupField fields headersKey = some (JVal.jObj hfields)) :
    zefixErrorBody (some (JVal.jObj fields)) =
      some (JVal.jObj (setField fields headersKey
        (JVal.jObj (redactHeaders hfields)))) ∧
    (∀ kv ∈ redactHeaders hfields,
      (kv.1 = authzName ∨ kv.1 = authzLowerKey) →
        kv.2 = JVal.jStr redactedMarker) ∧
    (∀ kv ∈ redactHeaders hfields, kv.1 ≠ authzName →
      kv.1 ≠ authzLowerKey → kv ∈ hfields) := by
  refine ⟨by simp [zefixErrorBody, hlook], ?_, ?_⟩
  · intro kv hkv hauth
    obtain ⟨kv0, hkv0, heq⟩ := List.mem_map.mp hkv
    by_cases hc : kv0.1 = authzName ∨ kv0.1 = authzLowerKey
    · rw [if_pos hc] at heq
      rw [← heq]
    · rw [if_neg hc] at heq
      rw [← heq] at hauth
      exact absurd hauth hc
  · intro kv hkv h1 h2
    obtain ⟨kv0, hkv0, heq⟩ := List.mem_map.mp hkv
    by_cases hc : kv0.1 = authzName ∨ kv0.1 = authzLowerKey
    · rw [if_pos hc] at heq
      rw [← heq] at h1 h2
      rcases hc with hc | hc
      · exact absurd hc h1
      · exact absurd hc h2
    · rw [if_neg hc] at heq
      rw [← heq]
      exact hkv0

/-- C8 witness: the redaction applied to the repo's own test scenario
(`Authorization: Basic secret123` next to a `Content-Type`). -/
theorem c8_index_error_redaction_witness :
    zefixErrorBody (some (JVal.jObj c8Fields)) =
      some (JVal.jObj (setField c8Fields headersKey
        (JVal.jObj (redactHeaders c8Hdrs)))) :=
  (c8_index_error_redaction c8Fields c8Hdrs rfl).1

/-- C9: the claim fails on the code.  Two clients register their
interceptors on the shared module-level `client`, so every request runs
both.  Client A (`minIntervalMs = 100`, `lastRequestTime = 0`) and
client B (no throttle): a request issued via B at `t = 1000` runs A's
interceptor too and sets A's `lastRequestTime` to 1000; a request via A
reading the clock at 1050 then dispatches at 1100, whereas without B's
request it would dispatch at 1050 — requests through one instance do
affect the other's spacing. -/
theorem c9_shared_client_interference :
    (runSharedInterceptors [some 100, none] [0, 0] 1000).2 = [1000, 0] ∧
    (runSharedInterceptors [some 100, none] [1000, 0] 1050).1 = 1100 ∧
    (runSharedInterceptors [some 100, none] [0, 0] 1050).1 = 1050 := by
  exact ⟨rfl, rfl, rfl⟩

/-- C10 counterexample: a response whose `error` field is present but
falsy (`0`) with truthy data makes `ensureOk` return the data, so
"returns the data exactly when the error field is absent and the data
field is truthy" is false as stated: the error field is present
here. -/
theorem c10_falsy_error_returns_data :
    ensureOkUtils c10FalsyErr = Except.ok (JVal.jStr ("x".toList)) ∧
    c10FalsyErr.error ≠ none := by
  refine ⟨rfl, by simp [c10FalsyErr]⟩

/-- C10 (amended): `ensureOk` (utils variant) returns the data field
exactly when the error field is absent **or falsy** and the data field
is truthy; with a non-truthy error and falsy or missing data it throws
the `NO_DATA` `ZefixError`; with a truthy error it throws
`fromResponse`. -/
theorem c10_ensureOk_characterization (r : UtilsApiResponse) :
    ((∃ d, ensureOkUtils r = Except.ok d) ↔
      (optTruthy r.error = false ∧ optTruthy r.data = true)) ∧
    (∀ d, ensureOkUtils r = Except.ok d → r.data = some d) ∧
    (optTruthy r.error = false → optTruthy r.data = false →
      ensureOkUtils r = Except.error (mkZefixErrorUtils
        ("No data in response".toList) (some r.response.status)
        (some ("NO_DATA".toList)) none)) ∧
    (optTruthy r.error = true →
      ensureOkUtils r = Except.error (zefixErrorFromResponse
        r.response.status r.response.statusText r.error)) := by
  by_cases herr : optTruthy r.error = true
  · have hrun : ensureOkUtils r = Except.error (zefixErrorFromResponse
        r.response.status r.response.statusText r.error) := by
      simp [ensureOkUtils, herr]
    refine ⟨?_, ?_, fun hfalse _ => ?_, fun _ => hrun⟩
    · simp [hrun, herr]
    · intro d hok
      rw [hrun] at hok
      exact absurd hok (by simp)
    · rw [herr] at hfalse
      exact absurd hfalse (by simp)
  · have herr' : optTruthy r.error = false := by
      simpa using herr
    cases hd : r.data with
    | none =>
      have hrun : ensureOkUtils r = Except.error (mkZefixErrorUtils
          ("No data in response".toList) (some r.response.status)
          (some ("NO_DATA".toList)) none) := by
        simp [ensureOkUtils, herr', hd]
      refine ⟨?_, ?_, fun _ _ => hrun, fun htrue => ?_⟩
      · simp [hrun, hd, optTruthy]
      · intro d hok
        rw [hrun] at hok
        exact absurd hok (by simp)
      · rw [herr'] at htrue
        exact absurd htrue (by simp)
    | some d =>
      by_cases hjt : jTruthy d = true
      · have hrun : ensureOkUtils r = Except.ok d := by
          simp [ensureOkUtils, herr', hd, hjt]
        refine ⟨?_, ?_, fun _ hcon => ?_, fun htrue => ?_⟩
        · constructor
          · intro _
            exact ⟨herr', by simp [hd, optTruthy, hjt]⟩
          · intro _
            exact ⟨d, hrun⟩
        · intro d' hok
          rw [hrun] at hok
          have hdd : d = d' := by simpa using hok
          rw [hdd]
        · simp [optTruthy, hjt] at hcon
        · rw [herr'] at htrue
          exact absurd htrue (by simp)
      · have hjt' : jTruthy d = false := by simpa using hjt
        have hrun : ensureOkUtils r = Except.error (mkZefixErrorUtils
            ("No data in response".toList) (some r.response.status)
            (some ("NO_DATA".toList)) none) := by
          simp [ensureOkUtils, herr', hd, hjt']
        refine ⟨?_, ?_, fun _ _ => hrun, fun htrue => ?_⟩
        · simp [hrun, hd, optTruthy, hjt']
        · intro d' hok
          rw [hrun] at hok
          exact absurd hok (by simp)
        · rw [herr'] at htrue
          exact absurd htrue (by simp)

/-- C10 witness: a successful response carrying an empty-string data
value throws the `NO_DATA` error. -/
theorem c10_ensureOk_characterization_witness :
    ensureOkUtils c10EmptyData = Except.error (mkZefixErrorUtils
      ("No data in response".toList) (some 200)
      (some ("NO_DATA".toList)) none) :=
  (c10_ensureOk_characterization c10EmptyData).2.2.1 rfl rfl

end Zefix
